/-
Verification of the enumgen declaration model, validator, and emitter.

The Go source is shallowly embedded:
  * `Config`, `Enum`, `Value` mirror the structs in gen.go (the Go field
    `Type` is a Lean keyword and is rendered here as `typeName`).
  * `checkValid` mirrors `Config.checkValid` in gen/config.go; the Go maps
    `enumSeen : mapset.Set[string]` and `valueSeen : map[string]string` are
    embedded as a list of names and an association list with the same
    lookup-default-empty semantics.
  * The emitter (`Enum.generate`, `Config.Generate` in gen.go) is embedded as
    string-building functions, together with semantic functions for the
    methods of the generated types (`String`, `Valid`, `Index`, the
    constructor, `Set`, `MarshalText`, `UnmarshalText`), transcribed from the
    method templates.  A generated value is represented by its stored ordinal
    (a natural number; the generator picks an unsigned base type wide enough
    that the stored ordinals never overflow, see `baseType`).
-/
import Mathlib

namespace Enumgen

/-- A single enumerator, mirroring `gen.Value` (gen.go). -/
structure Value where
  Name : String
  Doc : String := ""
  Text : String := ""
deriving DecidableEq, Repr

/-- An enumeration, mirroring `gen.Enum` (gen.go).  The Go field `Type` is
named `typeName` here because `Type` is reserved in Lean. -/
structure Enum where
  typeName : String
  Values : List Value
  Prefix : String := ""
  Doc : String := ""
  Zero : String := ""
  ValDoc : String := ""
  Constructor : Bool := false
  FlagValue : Bool := false
  TextMarshal : Bool := false
deriving DecidableEq, Repr

/-- A declaration set, mirroring `gen.Config` (gen.go). -/
structure Config where
  Package : String
  Enum : List Enum := []
deriving DecidableEq, Repr

/-- Go `fmt` `%q` applied to a configuration identifier by the validator and
by the emitter's templates.  These strings come from the declaration set
(type names, enumerator names, identifiers); for strings without characters
that `%q` escapes this is plain double-quote wrapping.  Runtime string
inputs of the generated methods are quoted by the faithful `goQuote`
below instead. -/
def quoted (s : String) : String := "\"" ++ s ++ "\""

/-- A lower-case hexadecimal digit, as used by Go's quoting. -/
def hexDigit (n : Nat) : Char :=
  if n < 10 then Char.ofNat (48 + n) else Char.ofNat (87 + n)

/-- Quoting of one character by Go's `%q` (strconv.Quote): a double quote or
backslash is backslash-escaped; printable ASCII is copied; the named control
escapes and `\x` hex escapes follow Go.  Runes at 0x80 and above are copied,
which matches Go for printable runes; the non-printable non-ASCII runes that
Go writes as `\u` escapes are not modelled, and the theorems below therefore
quantify only over ASCII strings where this function is exact. -/
def goQuoteChar (c : Char) : List Char :=
  if c = '"' ∨ c = '\\' then ['\\', c]
  else if 0x20 ≤ c.toNat ∧ c.toNat < 0x7F then [c]
  else if 0x80 ≤ c.toNat then [c]
  else if c.toNat = 0x07 then ['\\', 'a']
  else if c.toNat = 0x08 then ['\\', 'b']
  else if c.toNat = 0x0C then ['\\', 'f']
  else if c.toNat = 0x0A then ['\\', 'n']
  else if c.toNat = 0x0D then ['\\', 'r']
  else if c.toNat = 0x09 then ['\\', 't']
  else if c.toNat = 0x0B then ['\\', 'v']
  else ['\\', 'x', hexDigit (c.toNat / 16), hexDigit (c.toNat % 16)]

/-- Go `fmt` `%q` applied to a runtime string value, as in the generated
error message `fmt.Errorf("invalid value for T: %q", s)`. -/
def goQuote (s : String) : String :=
  "\"" ++ ⟨s.data.flatMap goQuoteChar⟩ ++ "\""

/-- A printable ASCII character other than double quote and backslash:
exactly the characters that `%q` copies unchanged, so that the quoted form
of a string of such characters contains the string itself. -/
def plainChar (c : Char) : Prop :=
  0x20 ≤ c.toNat ∧ c.toNat < 0x7F ∧ c ≠ '"' ∧ c ≠ '\\'

/-- Lookup in the embedded `valueSeen` map: a Go `map[string]string` read
returns the zero value `""` for an absent key.  The association list is
consed on update, so `find?` sees the most recent binding first. -/
def lookupSeen (m : List (String × String)) (k : String) : String :=
  match m.find? (fun p => p.1 == k) with
  | some p => p.2
  | none => ""

/-- The inner loop of `Config.checkValid` (gen/config.go lines 176–194) over
the values of one enumeration.  `j` is the 0-based position (messages are
1-based), `thisName` embeds the per-enumeration `mapset.Set`, and the result
carries the updated `valueSeen` map. -/
def checkValues (etype pfx zero : String) :
    Nat → List String → List (String × String) → List Value →
    Except String (List (String × String))
  | _, _, valueSeen, [] => .ok valueSeen
  | j, thisName, valueSeen, v :: vs =>
    if v.Name == "" then
      .error ("enum " ++ quoted etype ++ " value " ++ toString (j+1) ++
        ": name not defined")
    else if thisName.contains v.Name then
      .error ("enum " ++ quoted etype ++ " value " ++ toString (j+1) ++
        ": name " ++ quoted v.Name ++ " duplicated in " ++ quoted etype)
    else
      if lookupSeen valueSeen (pfx ++ v.Name) != "" &&
          (lookupSeen valueSeen (pfx ++ v.Name) != etype ||
            zero == "" || zero != v.Name) then
        .error ("enum " ++ quoted etype ++ " value " ++ toString (j+1) ++
          ": name " ++ quoted (pfx ++ v.Name) ++ " duplicated in " ++
          quoted (lookupSeen valueSeen (pfx ++ v.Name)))
      else
        checkValues etype pfx zero (j+1) (v.Name :: thisName)
          ((pfx ++ v.Name, etype) :: valueSeen) vs

/-- The zero-name registration step of `Config.checkValid` (gen/config.go
lines 163–169): when `e.Zero` is set, its full identifier must not already be
owned by a different enumeration; on success it is registered. -/
def zeroCheck (e : Enum) (valueSeen : List (String × String)) :
    Except String (List (String × String)) :=
  if e.Zero != "" then
    if lookupSeen valueSeen (e.Prefix ++ e.Zero) != "" &&
        lookupSeen valueSeen (e.Prefix ++ e.Zero) != e.typeName then
      .error ("enum " ++ quoted e.typeName ++ " default " ++
        quoted (e.Prefix ++ e.Zero) ++ " duplicated in " ++
        quoted (lookupSeen valueSeen (e.Prefix ++ e.Zero)))
    else .ok ((e.Prefix ++ e.Zero, e.typeName) :: valueSeen)
  else .ok valueSeen

/-- The outer loop of `Config.checkValid` (gen/config.go lines 153–195) over
the enumerations.  `i` is the 0-based position (messages are 1-based). -/
def checkEnums : List String → List (String × String) → Nat → List Enum →
    Except String Unit
  | _, _, _, [] => .ok ()
  | enumSeen, valueSeen, i, e :: es =>
    if e.typeName == "" then
      .error ("enum " ++ toString (i+1) ++ ": type name not defined")
    else if enumSeen.contains e.typeName then
      .error ("enum " ++ toString (i+1) ++ ": duplicate type name " ++
        quoted e.typeName)
    else
      if e.Values.isEmpty then
        .error ("enum " ++ toString (i+1) ++ ": no enumerators defined")
      else
        (zeroCheck e valueSeen).bind fun seen1 =>
          (checkValues e.typeName e.Prefix e.Zero 0 [] seen1 e.Values).bind
            fun seen2 => checkEnums (e.typeName :: enumSeen) seen2 (i+1) es

/-- `Config.checkValid` (gen/config.go lines 144–197). -/
def checkValid (c : Config) : Except String Unit :=
  if c.Package == "" then .error "package name not defined"
  else if c.Enum.isEmpty then .error "no enumerations defined"
  else checkEnums [] [] 0 c.Enum

/-- The enumeration `bar` of the zero-binding scenario: `zeroName = "X"` with
an enumerator literally named `"X"` in its own values list. -/
def barSelfZero : Enum :=
  { typeName := "bar", Zero := "X", Values := [{ Name := "X" }] }

/-! ## Emitter: storage width, label table, and generated-method semantics -/

/-- `baseType` (gen.go lines 634–647): the name of the unsigned base type
chosen for an enumeration with `n` values. -/
def baseType (n : Nat) : String :=
  if n < 2^8 then "uint8"
  else if n < 2^16 then "uint16"
  else if n < 2^32 then "uint32"
  else "uint64"

/-- The label strings extracted from the values of an enumeration
(gen.go lines 496–503): `v.Text` if set, else `v.Name`. -/
def labels (e : Enum) : List String :=
  e.Values.map (fun v => if v.Text != "" then v.Text else v.Name)

/-- The generated `_str_T` slice (gen.go line 586): the reserved invalid
marker at index 0, followed by the labels in declared order. -/
def strTable (e : Enum) : List String := "<invalid>" :: labels e

/-- Semantics of the generated `Index` method (template at gen.go line 512):
the stored ordinal as an integer. -/
def indexMethod (v : Nat) : Int := Int.ofNat v

/-- Semantics of the generated `String` method (template at gen.go line 515):
`_str_T[v._T]`.  Go indexing panics out of range; `none` marks that case. -/
def stringMethod (tbl : List String) (v : Nat) : Option String := tbl.get? v

/-- Semantics of the generated `Valid` method (template at gen.go line 518):
`v._T > 0 && int(v._T) < len(_str_T)`. -/
def validMethod (tbl : List String) (v : Nat) : Bool :=
  decide (0 < v) && decide (v < tbl.length)

/-- Model of `strings.EqualFold` used by the generated constructor.  Go's
EqualFold is Unicode simple-case-insensitive equality; it is modelled here as
character-wise lowercase comparison (`Char.toLower` folds exactly the ASCII
letters), which coincides with EqualFold precisely when both strings are
ASCII — Go's own ASCII fast path.  The theorems quantifying over labels and
inputs therefore carry ASCII hypotheses on both. -/
def eqFold (a b : String) : Bool :=
  a.data.map Char.toLower == b.data.map Char.toLower

/-- Semantics of the generated constructor (template at gen.go lines 522–534):
scan `_str_T[1:]` for the first case-insensitive match and return its ordinal
`i+1`, else the zero ordinal. -/
def newEnum (tbl : List String) (s : String) : Nat :=
  match (tbl.drop 1).findIdx? (fun opt => eqFold opt s) with
  | some i => i + 1
  | none => 0

/-- Semantics of the generated `Set` method (template at gen.go lines
539–549): delegate to the constructor; assign on a valid result, otherwise
report an error and leave the receiver `v` unchanged.  The result pairs the
returned error (if any) with the final receiver ordinal. -/
def setRun (tbl : List String) (tname : String) (v : Nat) (s : String) :
    Option String × Nat :=
  if validMethod tbl (newEnum tbl s) then (none, newEnum tbl s)
  else (some ("invalid value for " ++ tname ++ ": " ++ goQuote s), v)

/-- Semantics of the generated `MarshalText` method (template at gen.go
line 557): the string representation as bytes, never an error. -/
def marshalText (tbl : List String) (v : Nat) : Option String :=
  stringMethod tbl v

/-- Semantics of the generated `UnmarshalText` method (template at gen.go
lines 559–578).  The receiver is reset to the zero value first (`*v = T{}`);
empty input or the index-0 label succeeds with the zero value; otherwise
`_str_T[1:]` is scanned for an exact match; on no match an error naming the
input is returned.  The result pairs the returned error (if any) with the
final receiver ordinal; the initial receiver `v` is always overwritten. -/
def unmarshalRun (tbl : List String) (tname : String) (_v : Nat)
    (data : String) : Option String × Nat :=
  if data == "" || data == tbl.getD 0 "" then (none, 0)
  else
    match (tbl.drop 1).findIdx? (fun opt => opt == data) with
    | some i => (none, i + 1)
    | none => (some ("invalid value for " ++ tname ++ ": " ++ goQuote data), 0)

/-- The generated enumerator bindings of the `var` block (gen.go lines
595–611): the loop `for i, v := range e.Values` emits one binding
`prefix+name = T{i+1}` per value.  `i` is the 0-based loop counter, so the
pairs are (full identifier, stored ordinal). -/
def bindingEntries (pfx : String) : Nat → List Value → List (String × Nat)
  | _, [] => []
  | i, v :: vs => (pfx ++ v.Name, i + 1) :: bindingEntries pfx (i+1) vs

/-- The optional zero binding (gen.go lines 592–594): emitted before the
other bindings, constructed with ordinal 0. -/
def zeroBinding (e : Enum) : List (String × Nat) :=
  if e.Zero != "" then [(e.Prefix ++ e.Zero, 0)] else []

/-- All bindings of the `var` block of one enumeration, in emission order. -/
def bindings (e : Enum) : List (String × Nat) :=
  zeroBinding e ++ bindingEntries e.Prefix 0 e.Values

/-! ## Emitter: the generated source text

Braces of the emitted Go text are written `\x7b`/`\x7d`. -/

/-- `formatDoc` (gen.go lines 618–627): reformat a doc string into Go line
comments, preserving line breaks. -/
def formatDoc (s : String) : String :=
  if s == "" then ""
  else String.intercalate "\n"
    ((s.trim.splitOn "\n").map (fun line => "// " ++ line.trim))

/-- `injectName` (gen.go lines 630–632): replace `\x7bname\x7d` markers with
the given name. -/
def injectName (s name : String) : String :=
  s.replace "\x7bname\x7d" name

/-- The Enum/Index/String/Valid method templates (gen.go lines 507–519),
with the `%[n]` verbs substituted. -/
def coreMethodsText (etype field strs : String) : String :=
  "\n// Enum returns the name of the enumeration type for " ++ etype ++ ".\n" ++
  "func (" ++ etype ++ ") Enum() string \x7b return " ++ quoted etype ++ " \x7d\n" ++
  "\n// Index returns the ordinal index of " ++ etype ++ " v.\n" ++
  "func (v " ++ etype ++ ") Index() int \x7b return int(v." ++ field ++ ") \x7d\n" ++
  "\n// String returns the string representation of " ++ etype ++ " v.\n" ++
  "func (v " ++ etype ++ ") String() string \x7b return " ++ strs ++ "[v." ++
    field ++ "] \x7d\n" ++
  "\n// Valid reports whether v is a valid " ++ etype ++ " value.\n" ++
  "func (v " ++ etype ++ ") Valid() bool \x7b return v." ++ field ++
    " > 0 && int(v." ++ field ++ ") < len(" ++ strs ++ ") \x7d\n"

/-- The constructor template (gen.go lines 522–534). -/
def parseFuncText (etype parseFunc strs base : String) : String :=
  "\n// " ++ parseFunc ++ " returns the first enumerator of " ++ etype ++
    " whose string is a\n" ++
  "// case-insensitive match for s. If no enumerator matches, it returns the\n" ++
  "// invalid (zero) enumerator.\n" ++
  "func " ++ parseFunc ++ "(s string) " ++ etype ++ " \x7b\n" ++
  "   for i, opt := range " ++ strs ++ "[1:] \x7b\n" ++
  "      if strings.EqualFold(opt, s) \x7b\n" ++
  "         return " ++ etype ++ "\x7b" ++ base ++ "(i+1)\x7d\n" ++
  "      \x7d\n" ++
  "   \x7d\n" ++
  "   return " ++ etype ++ "\x7b0\x7d\n" ++
  "\x7d\n"

/-- The flag.Value `Set` method template (gen.go lines 539–549). -/
def setMethodText (etype parseFunc : String) : String :=
  "\n// Set implements part of the flag.Value interface for " ++ etype ++ ".\n" ++
  "// A value must equal the string representation of an enumerator.\n" ++
  "func (v *" ++ etype ++ ") Set(s string) error \x7b\n" ++
  "   if e := " ++ parseFunc ++ "(s); e.Valid() \x7b\n" ++
  "      *v = e\n" ++
  "      return nil\n" ++
  "   \x7d\n" ++
  "   return fmt.Errorf(\"invalid value for " ++ etype ++ ": %q\", s)\n" ++
  "\x7d\n"

/-- The MarshalText method template (gen.go lines 554–558). -/
def marshalTextText (etype : String) : String :=
  "\n// MarshalText encodes the value of the " ++ etype ++
    " enumerator as text.\n" ++
  "// It satisfies the encoding.TextMarshaler interface.\n" ++
  "func (v " ++ etype ++ ") MarshalText() ([]byte, error) \x7b " ++
    "return []byte(v.String()), nil \x7d\n"

/-- The UnmarshalText method template (gen.go lines 559–578); the misspelled
comment `UnarshalText` is reproduced from the source. -/
def unmarshalTextText (etype field strs base : String) : String :=
  "\n// UnarshalText decodes the value of the " ++ etype ++
    " enumerator from a string.\n" ++
  "// It reports an error if data does not encode a known enumerator.\n" ++
  "// An empty slice decodes to the invalid (zero) value.\n" ++
  "// This method satisfies the encoding.TextUnmarshaler interface.\n" ++
  "func (v *" ++ etype ++ ") UnmarshalText(data []byte) error \x7b\n" ++
  "   *v = " ++ etype ++ "\x7b\x7d\n" ++
  "   text := string(data)\n" ++
  "   if text == \"\" || text == " ++ strs ++ "[0] \x7b\n" ++
  "      return nil\n" ++
  "   \x7d\n" ++
  "   for i, opt := range " ++ strs ++ "[1:] \x7b\n" ++
  "      if opt == text \x7b\n" ++
  "         v." ++ field ++ " = " ++ base ++ "(i+1)\n" ++
  "         return nil\n" ++
  "      \x7d\n" ++
  "   \x7d\n" ++
  "   return fmt.Errorf(\"invalid value for " ++ etype ++ ": %q\", text)\n" ++
  "\x7d\n"

/-- The enumerator binding lines of the `var` block (gen.go lines 595–611):
the loop `for i, v := range e.Values`, with the doc comment placed before
the binding when multi-line and on the same line when single-line. -/
def valueLines (etype pfx : String) : Nat → List Value → String
  | _, [] => ""
  | i, v :: vs =>
    let fullName := pfx ++ v.Name
    let doc := formatDoc (injectName v.Doc fullName)
    let multiline := doc.contains '\n'
    (if doc != "" && multiline then "\t" ++ doc ++ "\n" else "") ++
    ("\t" ++ fullName ++ " = " ++ etype ++ "\x7b" ++ toString (i+1) ++ "\x7d") ++
    (if doc != "" then (if multiline then "\n" else "\t" ++ doc) else "") ++
    "\n" ++
    valueLines etype pfx (i+1) vs

/-- `Enum.generate` (gen.go lines 478–614): the source text emitted for one
enumeration. -/
def enumText (e : Enum) : String :=
  let base := baseType e.Values.length
  let field := "_" ++ e.typeName
  let parseFunc :=
    if e.Constructor then "New" ++ e.typeName
    else if e.FlagValue then "new" ++ e.typeName
    else ""
  let strs := "_str_" ++ e.typeName
  (if formatDoc e.Doc != "" then formatDoc e.Doc ++ "\n" else "") ++
  ("type " ++ e.typeName ++ " struct \x7b " ++ field ++ " " ++ base ++ " \x7d\n") ++
  coreMethodsText e.typeName field strs ++
  (if parseFunc != "" then parseFuncText e.typeName parseFunc strs base else "") ++
  (if e.FlagValue then setMethodText e.typeName parseFunc else "") ++
  (if e.TextMarshal then
    marshalTextText e.typeName ++ unmarshalTextText e.typeName field strs base
   else "") ++
  (if formatDoc e.ValDoc != "" then formatDoc e.ValDoc ++ "\n" else "") ++
  "var (\n" ++
  ("\t" ++ strs ++ " = []string\x7b" ++ quoted "<invalid>" ++ "," ++
    String.join ((labels e).map (fun l => quoted l ++ ",")) ++ "\x7d\n\n") ++
  (if e.Zero != "" then
    "\t" ++ e.Prefix ++ e.Zero ++ " = " ++ e.typeName ++ "\x7b0\x7d\n"
   else "") ++
  valueLines e.typeName e.Prefix 0 e.Values ++
  ")\n"

/-- Whether the `imp` map of `Config.Generate` (gen.go lines 439–450)
contains `"fmt"`: some enumeration requests flag.Value or text marshaling. -/
def needsFmt (c : Config) : Bool :=
  c.Enum.any (fun e => e.FlagValue || e.TextMarshal)

/-- Whether the `imp` map contains `"strings"`: some enumeration requests
flag.Value, text marshaling, or a constructor. -/
def needsStrings (c : Config) : Bool :=
  c.Enum.any (fun e => e.FlagValue || e.TextMarshal || e.Constructor)

/-- The key set of the `imp` map, as a canonical duplicate-free list.  The
map-range order in which `Config.Generate` emits these keys is
unspecified; it is passed separately (see `rawOutput`). -/
def importKeys (c : Config) : List String :=
  (if needsFmt c then ["fmt"] else []) ++
  (if needsStrings c then ["strings"] else [])

/-- The import block (gen.go lines 451–457): emitted only when the map is
non-empty, one `\t"path"` line per key in map-range order `o`. -/
def importBlock (o : List String) : String :=
  if o.isEmpty then ""
  else "import (\n" ++
    String.join (o.map (fun p => "\t" ++ quoted p ++ "\n")) ++ ")\n"

/-- The unformatted output of `Config.Generate` (gen.go lines 435–464):
header comment, package clause, import block (keys in map-range order `o`),
then each enumeration's text preceded by a blank line. -/
def rawOutput (c : Config) (o : List String) : String :=
  "// Code generated by enumgen. DO NOT EDIT.\n\n" ++
  ("package " ++ c.Package ++ "\n") ++
  importBlock o ++
  String.join (c.Enum.map (fun e => "\n" ++ enumText e))

/-- The byte order on strings used to canonicalize import paths. -/
def dataLe (a b : String) : Prop := a.data ≤ b.data

instance : DecidableRel dataLe :=
  fun a b => inferInstanceAs (Decidable (a.data ≤ b.data))

instance : IsTotal String dataLe := ⟨fun a b => le_total a.data b.data⟩

instance : IsTrans String dataLe := ⟨fun _ _ _ => le_trans⟩

instance : IsAntisymm String dataLe := ⟨fun a b h1 h2 => by
  have h3 := le_antisymm h1 h2
  cases a; cases b; exact congrArg String.mk h3⟩

/-- Modelled from the spec: the final formatting step (`go/format.Source`,
gen.go lines 466–474) is an external collaborator that canonicalizes the
emitted text; on the text shapes produced by `rawOutput` its only
order-sensitive effect is to sort the import specs within the import block,
so its action on `rawOutput c o` is modelled as re-emission with the import
keys in sorted order. -/
def formattedOutput (c : Config) (o : List String) : String :=
  rawOutput c (List.insertionSort dataLe o)

/-- `Config.Generate` (gen.go lines 430–475): validate, emit, format.  The
map-range order of the import keys is the parameter `o`, a permutation of
`importKeys c`. -/
def Generate (c : Config) (o : List String) : Except String String :=
  match checkValid c with
  | .error m => .error m
  | .ok _ => .ok (formattedOutput c o)

/-! ## Concrete declaration sets from the spec scenarios and the test suite -/

/-- The second enumeration of the zero-binding scenario, claiming `"X"` as an
ordinary enumerator. -/
def bazValX : Enum := { typeName := "baz", Values := [{ Name := "X" }] }

/-- The second enumeration of the zero-binding scenario, claiming `"X"` as
its zero name. -/
def bazZeroX : Enum :=
  { typeName := "baz", Zero := "X", Values := [{ Name := "Z" }] }

/-- The enumeration `bar` of the prefix-collision scenario (TestErrors):
prefix `"A"`, one enumerator `"X"`. -/
def barPrefixA : Enum :=
  { typeName := "bar", Prefix := "A", Values := [{ Name := "X" }] }

/-- The enumeration `baz` of the prefix-collision scenario: one enumerator
`"AX"`. -/
def bazAX : Enum := { typeName := "baz", Values := [{ Name := "AX" }] }

/-- The prefix-collision declaration set of TestErrors. -/
def cPrefixCollision : Config := { Package := "foo", Enum := [barPrefixA, bazAX] }

/-- The `E3` enumeration of the test data (gentest.yml): labels `foo`, `bar`,
with flag-value and text-marshal enabled. -/
def e3Enum : Enum :=
  { typeName := "E3", Values := [{ Name := "foo" }, { Name := "bar" }],
    FlagValue := true, TextMarshal := true }

/-- A declaration set around `e3Enum`. -/
def cE3 : Config := { Package := "testdata", Enum := [e3Enum] }

/-- The `Example` enumeration of the package example (example_test.go). -/
def exampleEnum : Enum :=
  { typeName := "Example",
    Values := [{ Name := "Good", Doc := "upsides" },
               { Name := "Bad", Doc := "downsides" },
               { Name := "Ugly", Doc := "what it says on the tin" }] }

/-- A validated enumeration whose only value carries the explicit label text
`"<invalid>"`: the text-codec round trip fails on it. -/
def eBadLabel : Enum :=
  { typeName := "E", Values := [{ Name := "A", Text := "<invalid>" }],
    TextMarshal := true }

/-- An enumeration whose two values share the explicit label text `"same"`. -/
def dupTextEnum : Enum :=
  { typeName := "E",
    Values := [{ Name := "A", Text := "same" }, { Name := "B", Text := "same" }] }

/-- A declaration set with two enumerators sharing identical explicit text. -/
def cDupText : Config := { Package := "p", Enum := [dupTextEnum] }

/-- An enumeration with a documented value, for comparing validation outcomes
across documentation changes. -/
def eDocA : Enum :=
  { typeName := "E", Values := [{ Name := "A", Doc := "hello" }] }

/-- `eDocA` with different documentation text on its value. -/
def eDocB : Enum :=
  { typeName := "E", Values := [{ Name := "A", Doc := "goodbye" }] }

/-! ## The validation skeleton: the fields `checkValid` reads -/

/-- Erase the fields of a value that `checkValid` never reads (`Doc` and
`Text`), keeping `Name`. -/
def scrubValue (v : Value) : Value := { Name := v.Name }

/-- Erase the fields of an enumeration that `checkValid` never reads (`Doc`,
`ValDoc`, the feature flags, and the values' `Doc`/`Text`), keeping the type
name, prefix, zero name, and enumerator names. -/
def scrubEnum (e : Enum) : Enum :=
  { typeName := e.typeName, Values := e.Values.map scrubValue,
    Prefix := e.Prefix, Zero := e.Zero }

/-- Erase all fields of a declaration set that `checkValid` never reads. -/
def scrubConfig (c : Config) : Config :=
  { Package := c.Package, Enum := c.Enum.map scrubEnum }

/-! ## The storage-width specification -/

/-- The bit width named by a base-type name. -/
def widthBits (s : String) : Nat :=
  if s = "uint8" then 8
  else if s = "uint16" then 16
  else if s = "uint32" then 32
  else if s = "uint64" then 64
  else 0

/-- `w` is the smallest of the available unsigned widths able to index
`n + 1` distinct states. -/
def isMinimalWidth (n w : Nat) : Prop :=
  w ∈ ([8, 16, 32, 64] : List Nat) ∧ n + 1 ≤ 2^w ∧
    ∀ w' ∈ ([8, 16, 32, 64] : List Nat), n + 1 ≤ 2^w' → w ≤ w'

/-! ## Sanity checks -/

example : checkValid { Package := "foo" } = .error "no enumerations defined" := rfl

example : checkValid { Package := "foo", Enum := [barSelfZero] } = .ok () := rfl

example : baseType 255 = "uint8" := rfl

example : baseType 256 = "uint16" := rfl

example : newEnum ["<invalid>", "foo", "bar"] "FOO" = 1 := rfl

example : unmarshalRun ["<invalid>", "foo", "bar"] "E3" 2 "baz" =
    (some "invalid value for E3: \"baz\"", 0) := rfl

example : unmarshalRun ["<invalid>", "foo", "bar"] "E3" 2 "<invalid>" = (none, 0) := rfl

example : bindings barSelfZero = [("X", 0), ("X", 1)] := rfl

/-! ## Helper lemmas -/

theorem bindingEntries_get? (pfx : String) :
    ∀ (vs : List Value) (i k : Nat),
      (bindingEntries pfx i vs).get? k =
        (vs.get? k).map (fun v => (pfx ++ v.Name, i + k + 1)) := by
  intro vs
  induction vs with
  | nil => intro i k; simp [bindingEntries]
  | cons v rest ih =>
    intro i k
    cases k with
    | zero => simp [bindingEntries]
    | succ k' =>
      simp only [bindingEntries, List.get?_cons_succ]
      rw [ih (i+1) k']
      congr 1
      funext v
      congr 2
      omega

theorem checkValues_scrub (t p z : String) :
    ∀ (vs vs' : List Value), vs.map scrubValue = vs'.map scrubValue →
    ∀ (j : Nat) (tn : List String) (seen : List (String × String)),
      checkValues t p z j tn seen vs = checkValues t p z j tn seen vs' := by
  intro vs
  induction vs with
  | nil =>
    intro vs' h
    cases vs' with
    | nil => intro j tn seen; rfl
    | cons v' rest' => simp at h
  | cons v rest ih =>
    intro vs' h
    cases vs' with
    | nil => simp at h
    | cons v' rest' =>
      simp only [List.map_cons, List.cons.injEq] at h
      have hname : v.Name = v'.Name := by
        have h2 := congrArg Value.Name h.1
        simpa [scrubValue] using h2
      intro j tn seen
      unfold checkValues
      rw [hname, ih rest' h.2]

theorem checkEnums_scrub :
    ∀ (es es' : List Enum), es.map scrubEnum = es'.map scrubEnum →
    ∀ (sn : List String) (seen : List (String × String)) (i : Nat),
      checkEnums sn seen i es = checkEnums sn seen i es' := by
  intro es
  induction es with
  | nil =>
    intro es' h
    cases es' with
    | nil => intro sn seen i; rfl
    | cons => simp at h
  | cons e rest ih =>
    intro es' h
    cases es' with
    | nil => simp at h
    | cons e' rest' =>
      simp only [List.map_cons, List.cons.injEq] at h
      have hty : e.typeName = e'.typeName := by
        have h2 := congrArg Enum.typeName h.1
        simpa [scrubEnum] using h2
      have hpfx : e.Prefix = e'.Prefix := by
        have h2 := congrArg Enum.Prefix h.1
        simpa [scrubEnum] using h2
      have hzero : e.Zero = e'.Zero := by
        have h2 := congrArg Enum.Zero h.1
        simpa [scrubEnum] using h2
      have hvals : e.Values.map scrubValue = e'.Values.map scrubValue := by
        have h2 := congrArg Enum.Values h.1
        simpa [scrubEnum] using h2
      have hempty : e.Values.isEmpty = e'.Values.isEmpty := by
        cases hv1 : e.Values <;> cases hv2 : e'.Values <;> simp_all
      have hzc : ∀ seen, zeroCheck e seen = zeroCheck e' seen := by
        intro seen
        unfold zeroCheck
        rw [hty, hpfx, hzero]
      intro sn seen i
      unfold checkEnums
      rw [hty, hempty, hzc, hpfx, hzero]
      simp only [checkValues_scrub e'.typeName e'.Prefix e'.Zero e.Values
        e'.Values hvals, ih rest' h.2]

theorem quoted_decomp (tname s : String) :
    "invalid value for " ++ tname ++ ": " ++ quoted s =
      ("invalid value for " ++ tname ++ ": " ++ "\"") ++ s ++ "\"" := by
  have hmerge : ∀ x : String, ": " ++ ("\"" ++ x) = ": \"" ++ x := by
    intro x
    rw [← String.append_assoc]
    rfl
  simp [quoted, String.append_assoc, hmerge]

theorem findIdx?_some_lt {α : Type} (p : α → Bool) :
    ∀ (l : List α) (i : Nat), l.findIdx? p = some i → i < l.length := by
  intro l
  induction l with
  | nil => intro i h; simp [List.findIdx?_nil] at h
  | cons a rest ih =>
    intro i h
    rw [List.findIdx?_cons] at h
    by_cases hp : p a = true
    · rw [if_pos hp] at h
      cases h
      simp
    · rw [if_neg hp, List.findIdx?_succ] at h
      cases hr : rest.findIdx? p with
      | none => rw [hr] at h; simp at h
      | some j =>
        rw [hr] at h
        simp at h
        have := ih j hr
        simp only [List.length_cons]
        omega

theorem nodup_findIdx?_get {α : Type} [BEq α] [LawfulBEq α] :
    ∀ (l : List α) (k : Nat) (a : α), l.Nodup → l.get? k = some a →
      l.findIdx? (fun x => x == a) = some k := by
  intro l
  induction l with
  | nil => intro k a _ h; simp at h
  | cons b rest ih =>
    intro k a hnd hget
    rw [List.findIdx?_cons]
    by_cases hba : (b == a) = true
    · rw [if_pos hba]
      have hb : b = a := eq_of_beq hba
      cases k with
      | zero => rfl
      | succ k' =>
        exfalso
        rw [List.get?_cons_succ] at hget
        have hmem : a ∈ rest := List.get?_mem hget
        rw [List.nodup_cons] at hnd
        exact hnd.1 (hb ▸ hmem)
    · rw [if_neg hba]
      cases k with
      | zero =>
        simp only [List.get?_cons_zero, Option.some.injEq] at hget
        exact absurd (by rw [hget]; exact beq_self_eq_true a) hba
      | succ k' =>
        rw [List.get?_cons_succ] at hget
        rw [List.findIdx?_succ, ih k' a (List.nodup_cons.mp hnd).2 hget]
        rfl

theorem checkValues_ok_names (t p z : String) :
    ∀ (vs : List Value) (j : Nat) (tn : List String)
      (seen r : List (String × String)),
      checkValues t p z j tn seen vs = .ok r → ∀ v ∈ vs, v.Name ≠ "" := by
  intro vs
  induction vs with
  | nil => intro j tn seen r _ v hv; simp at hv
  | cons v0 rest ih =>
    intro j tn seen r h v hv
    unfold checkValues at h
    by_cases h1 : (v0.Name == "") = true
    · rw [if_pos h1] at h
      exact absurd h (by simp)
    · rw [if_neg h1] at h
      by_cases h2 : tn.contains v0.Name = true
      · rw [if_pos h2] at h
        exact absurd h (by simp)
      · rw [if_neg h2] at h
        by_cases h3 : (lookupSeen seen (p ++ v0.Name) != "" &&
            (lookupSeen seen (p ++ v0.Name) != t ||
              z == "" || z != v0.Name)) = true
        · rw [if_pos h3] at h
          exact absurd h (by simp)
        · rw [if_neg h3] at h
          rcases List.mem_cons.mp hv with rfl | hv'
          · simpa using h1
          · exact ih (j+1) (v0.Name :: tn) ((p ++ v0.Name, t) :: seen) r h v hv'

theorem except_bind_ok {ε α β : Type} (a : α) (f : α → Except ε β) :
    (Except.ok a : Except ε α).bind f = f a := rfl

theorem except_bind_error {ε α β : Type} (m : ε) (f : α → Except ε β) :
    (Except.error m : Except ε α).bind f = Except.error m := rfl

theorem checkValid_single_names (p : String) (e : Enum)
    (hv : checkValid { Package := p, Enum := [e] } = .ok ()) :
    ∀ v ∈ e.Values, v.Name ≠ "" := by
  unfold checkValid at hv
  split at hv
  · exact absurd hv (by simp)
  · split at hv
    · exact absurd hv (by simp)
    · unfold checkEnums at hv
      split at hv
      · exact absurd hv (by simp)
      · split at hv
        · exact absurd hv (by simp)
        · split at hv
          · exact absurd hv (by simp)
          · cases hz : zeroCheck e [] with
            | error m =>
              rw [hz] at hv
              exact absurd hv (by simp [Except.bind])
            | ok seen1 =>
              rw [hz, except_bind_ok] at hv
              cases hcv : checkValues e.typeName e.Prefix e.Zero 0 [] seen1
                  e.Values with
              | error m =>
                rw [hcv] at hv
                exact absurd hv (by simp [Except.bind])
              | ok seen2 =>
                exact checkValues_ok_names e.typeName e.Prefix e.Zero
                  e.Values 0 [] seen1 seen2 hcv

theorem labels_ne_empty (p : String) (e : Enum)
    (hv : checkValid { Package := p, Enum := [e] } = .ok ()) :
    ∀ lbl ∈ labels e, lbl ≠ "" := by
  intro lbl hl
  unfold labels at hl
  rcases List.mem_map.mp hl with ⟨v, hvmem, rfl⟩
  by_cases ht : (v.Text != "") = true
  · rw [if_pos ht]
    simpa using ht
  · rw [if_neg ht]
    exact checkValid_single_names p e hv v hvmem

theorem lookupSeen_cons_ne (k' t' key : String)
    (seen : List (String × String)) (h : k' ≠ key) :
    lookupSeen ((k', t') :: seen) key = lookupSeen seen key := by
  unfold lookupSeen
  simp only [List.find?]
  have : ((k', t').1 == key) = false := by simpa using h
  rw [this]

theorem checkValues_owned_key_error (etype pfx zero key owner : String)
    (howner : owner ≠ "") (hne : owner ≠ etype) :
    ∀ (vs : List Value) (j : Nat) (tn : List String)
      (seen : List (String × String)),
      lookupSeen seen key = owner →
      (∃ v ∈ vs, pfx ++ v.Name = key) →
      ∃ m, checkValues etype pfx zero j tn seen vs = .error m := by
  intro vs
  induction vs with
  | nil =>
    intro j tn seen _ hex
    rcases hex with ⟨v, hv, _⟩
    simp at hv
  | cons v0 rest ih =>
    intro j tn seen hlook hex
    unfold checkValues
    by_cases h1 : (v0.Name == "") = true
    · rw [if_pos h1]
      exact ⟨_, rfl⟩
    · rw [if_neg h1]
      by_cases h2 : tn.contains v0.Name = true
      · rw [if_pos h2]
        exact ⟨_, rfl⟩
      · rw [if_neg h2]
        by_cases h3 : (lookupSeen seen (pfx ++ v0.Name) != "" &&
            (lookupSeen seen (pfx ++ v0.Name) != etype ||
              zero == "" || zero != v0.Name)) = true
        · rw [if_pos h3]
          exact ⟨_, rfl⟩
        · rw [if_neg h3]
          have hkey : pfx ++ v0.Name ≠ key := by
            intro hk
            apply h3
            rw [hk, hlook]
            simp only [Bool.and_eq_true, Bool.or_eq_true, bne_iff_ne, ne_eq]
            exact ⟨howner, Or.inl (Or.inl hne)⟩
          rcases hex with ⟨v, hvmem, hvkey⟩
          rcases List.mem_cons.mp hvmem with rfl | hvrest
          · exact absurd hvkey hkey
          · exact ih (j+1) (v0.Name :: tn) ((pfx ++ v0.Name, etype) :: seen)
              (by rw [lookupSeen_cons_ne _ _ _ _ hkey]; exact hlook)
              ⟨v, hvrest, hvkey⟩

/-- Processing the enumeration `bar` of the zero-binding scenario registers
the identifier `"X"` for owner `bar` (once from its zero name and once from
its value list) and succeeds, leaving any following enumeration to be
checked against that registry. -/
theorem checkValid_barSelfZero_step (e2 : Enum) :
    checkValid { Package := "foo", Enum := [barSelfZero, e2] } =
      checkEnums ["bar"] [("X", "bar"), ("X", "bar")] 1 [e2] := rfl

theorem exists_error_bind {β : Type} (x : Except String β)
    (f : β → Except String Unit)
    (h : ∀ b, x = .ok b → ∃ m, f b = .error m) :
    ∃ m, x.bind f = .error m := by
  cases x with
  | error msg => exact ⟨msg, rfl⟩
  | ok b => exact h b rfl

theorem checkEnums_after_bar_error (e2 : Enum) (hty : e2.typeName ≠ "bar")
    (hclaim : (e2.Zero ≠ "" ∧ e2.Prefix ++ e2.Zero = "X") ∨
      (∃ v ∈ e2.Values, e2.Prefix ++ v.Name = "X")) :
    ∃ m, checkEnums ["bar"] [("X", "bar"), ("X", "bar")] 1 [e2] = .error m := by
  unfold checkEnums
  by_cases h1 : (e2.typeName == "") = true
  · rw [if_pos h1]
    exact ⟨_, rfl⟩
  · rw [if_neg h1]
    have h2 : ¬((["bar"].contains e2.typeName) = true) := by
      simp only [List.contains_cons, List.contains_nil, Bool.or_false,
        beq_iff_eq]
      exact fun hh => hty hh
    rw [if_neg h2]
    by_cases h3 : e2.Values.isEmpty = true
    · rw [if_pos h3]
      exact ⟨_, rfl⟩
    · rw [if_neg h3]
      have hbarcond : (lookupSeen [("X", "bar"), ("X", "bar")] "X" != "" &&
          lookupSeen [("X", "bar"), ("X", "bar")] "X" != e2.typeName) =
          true := by
        show (("bar" != "") && ("bar" != e2.typeName)) = true
        simp only [Bool.and_eq_true, bne_iff_ne, ne_eq]
        constructor
        · simp
        · exact fun hh => hty hh.symm
      refine exists_error_bind _ _ ?_
      intro seen1 hzc
      refine exists_error_bind _ _ ?_
      intro seen2 hcv
      exfalso
      rcases hclaim with ⟨hz4, hkey⟩ | hvals
      · -- the second enumeration claims "X" as its zero name:
        -- zeroCheck must already have failed, contradicting hzc
        unfold zeroCheck at hzc
        have h4 : (e2.Zero != "") = true := by simpa using hz4
        rw [if_pos h4, hkey, if_pos hbarcond] at hzc
        exact absurd hzc (by simp)
      · -- the second enumeration claims "X" among its values:
        -- checkValues must fail, contradicting hcv
        have hlook : lookupSeen seen1 "X" = "bar" := by
          unfold zeroCheck at hzc
          by_cases h4 : (e2.Zero != "") = true
          · rw [if_pos h4] at hzc
            by_cases h5 : e2.Prefix ++ e2.Zero = "X"
            · rw [h5, if_pos hbarcond] at hzc
              exact absurd hzc (by simp)
            · by_cases h6 : (lookupSeen [("X", "bar"), ("X", "bar")]
                  (e2.Prefix ++ e2.Zero) != "" &&
                  lookupSeen [("X", "bar"), ("X", "bar")]
                    (e2.Prefix ++ e2.Zero) != e2.typeName) = true
              · rw [if_pos h6] at hzc
                exact absurd hzc (by simp)
              · rw [if_neg h6] at hzc
                have hs : (e2.Prefix ++ e2.Zero, e2.typeName) ::
                    [("X", "bar"), ("X", "bar")] = seen1 := by
                  simpa using hzc
                rw [← hs, lookupSeen_cons_ne _ _ _ _ h5]
                rfl
          · rw [if_neg h4] at hzc
            have hs2 : ([("X", "bar"), ("X", "bar")] :
                List (String × String)) = seen1 := by
              simpa using hzc
            rw [← hs2]
            rfl
        obtain ⟨m, hm⟩ := checkValues_owned_key_error e2.typeName
          e2.Prefix e2.Zero "X" "bar" (by decide)
          (fun hh => hty hh.symm) e2.Values 0 [] seen1 hlook hvals
        rw [hcv] at hm
        exact absurd hm (by simp)

theorem insertionSort_eq_of_perm {l1 l2 : List String} (h : l1.Perm l2) :
    List.insertionSort dataLe l1 = List.insertionSort dataLe l2 := by
  apply List.eq_of_perm_of_sorted (r := dataLe)
  · exact (List.perm_insertionSort _ l1).trans
      (h.trans (List.perm_insertionSort _ l2).symm)
  · exact List.sorted_insertionSort _ l1
  · exact List.sorted_insertionSort _ l2

/-! ## Claim theorems -/

/-- C1: for every declaration set passing validation, Generate is
deterministic: rendering the same Config twice yields byte-identical output,
for any two map-range orders `o1`, `o2` in which the import keys may be
emitted before the text passes through the Go source formatter. -/
theorem generate_deterministic (c : Config) (o1 o2 : List String)
    (hv : checkValid c = .ok ()) (h1 : o1.Perm (importKeys c))
    (h2 : o2.Perm (importKeys c)) :
    Generate c o1 = Generate c o2 := by
  unfold Generate
  rw [hv]
  unfold formattedOutput
  rw [insertionSort_eq_of_perm (h1.trans h2.symm)]

/-- Witness for C1: the E3 declaration set imports both `fmt` and `strings`;
emitting them in either map order yields identical final output. -/
theorem generate_deterministic_witness :
    Generate cE3 ["strings", "fmt"] = Generate cE3 ["fmt", "strings"] :=
  generate_deterministic cE3 ["strings", "fmt"] ["fmt", "strings"] rfl
    (List.Perm.swap "fmt" "strings" []) (List.Perm.refl _)

/-- C2: the declaration set whose single enumeration `bar` has zero name
`"X"` and an enumerator literally named `"X"` in its own values list passes
validation; and for every declaration set in which a second, different
enumeration later claims the full identifier `"X"` — as an enumerator or as
its zero name — validation fails, with the two scenario instances failing
with errors that name `"X"` and the prior owner `bar`. -/
theorem zero_binding_scenario :
    checkValid { Package := "foo", Enum := [barSelfZero] } = .ok () ∧
    (∀ e2 : Enum, e2.typeName ≠ "bar" →
      ((e2.Zero ≠ "" ∧ e2.Prefix ++ e2.Zero = "X") ∨
        (∃ v ∈ e2.Values, e2.Prefix ++ v.Name = "X")) →
      ∃ m, checkValid { Package := "foo", Enum := [barSelfZero, e2] } =
        .error m) ∧
    checkValid { Package := "foo", Enum := [barSelfZero, bazValX] } =
      .error ("enum " ++ quoted "baz" ++ " value 1: name " ++ quoted "X" ++
        " duplicated in " ++ quoted "bar") ∧
    checkValid { Package := "foo", Enum := [barSelfZero, bazZeroX] } =
      .error ("enum " ++ quoted "baz" ++ " default " ++ quoted "X" ++
        " duplicated in " ++ quoted "bar") := by
  refine ⟨rfl, ?_, rfl, rfl⟩
  intro e2 hty hclaim
  rw [checkValid_barSelfZero_step e2]
  exact checkEnums_after_bar_error e2 hty hclaim

/-- Witness for C2: the enumeration `baz` claiming `"X"` as an ordinary
enumerator makes validation of the two-enumeration set fail. -/
theorem zero_binding_scenario_witness :
    ∃ m, checkValid { Package := "foo", Enum := [barSelfZero, bazValX] } =
      .error m :=
  zero_binding_scenario.2.1 bazValX (by decide)
    (Or.inr ⟨{ Name := "X" }, by decide, rfl⟩)

/-- C3: the declaration set with enumerations `bar` (prefix `"A"`, enumerator
`"X"`) and `baz` (enumerator `"AX"`) fails validation, and the error message
contains the colliding full identifier `"AX"` and names `bar` as the
enumeration that already owns it. -/
theorem prefix_collision_scenario :
    checkValid cPrefixCollision =
      .error ("enum " ++ quoted "baz" ++ " value 1: name " ++ quoted "AX" ++
        " duplicated in " ++ quoted "bar") := rfl

/-- C5: the storage width is a pure function of the enumerator count `n`: it
is the smallest of 8, 16, 32, 64 bits able to index `n + 1` distinct states,
and in particular 255 enumerators select `uint8` while 256 select `uint16`.
(The bound `n < 2^63` reflects that `n` is a Go slice length, a non-negative
`int`.) -/
theorem baseType_minimal_width (n : Nat) (h : n < 2^63) :
    isMinimalWidth n (widthBits (baseType n)) ∧
    baseType 255 = "uint8" ∧ baseType 256 = "uint16" := by
  refine ⟨?_, rfl, rfl⟩
  have e8 : (2:Nat)^8 = 256 := by norm_num
  have e16 : (2:Nat)^16 = 65536 := by norm_num
  have e32 : (2:Nat)^32 = 4294967296 := by norm_num
  have e63 : (2:Nat)^63 = 9223372036854775808 := by norm_num
  have e64 : (2:Nat)^64 = 18446744073709551616 := by norm_num
  unfold baseType
  split_ifs with h1 h2 h3
  · rw [show widthBits "uint8" = 8 from rfl]
    refine ⟨by simp, by omega, ?_⟩
    intro w' hw'
    simp only [List.mem_cons, List.not_mem_nil, or_false] at hw'
    rcases hw' with rfl | rfl | rfl | rfl <;> omega
  · rw [show widthBits "uint16" = 16 from rfl]
    refine ⟨by simp, by omega, ?_⟩
    intro w' hw'
    simp only [List.mem_cons, List.not_mem_nil, or_false] at hw'
    rcases hw' with rfl | rfl | rfl | rfl <;> omega
  · rw [show widthBits "uint32" = 32 from rfl]
    refine ⟨by simp, by omega, ?_⟩
    intro w' hw'
    simp only [List.mem_cons, List.not_mem_nil, or_false] at hw'
    rcases hw' with rfl | rfl | rfl | rfl <;> omega
  · rw [show widthBits "uint64" = 64 from rfl]
    refine ⟨by simp, by omega, ?_⟩
    intro w' hw'
    simp only [List.mem_cons, List.not_mem_nil, or_false] at hw'
    rcases hw' with rfl | rfl | rfl | rfl <;> omega

/-- Witness for C5 at the boundary count 255. -/
theorem baseType_minimal_width_witness :
    isMinimalWidth 255 (widthBits (baseType 255)) ∧
    baseType 255 = "uint8" ∧ baseType 256 = "uint16" :=
  baseType_minimal_width 255 (by norm_num)

/-- C6: for every enumeration and every 1-indexed position `k`, the emitted
binding for the `k`-th declared enumerator stores ordinal `k` (so the `Index`
accessor returns `k`), and the zero-name binding, when present, stores
ordinal 0. -/
theorem enumerator_ordinals (e : Enum) (k : Nat) (h1 : 1 ≤ k)
    (h2 : k ≤ e.Values.length) :
    (∃ v, e.Values.get? (k-1) = some v ∧
      (bindingEntries e.Prefix 0 e.Values).get? (k-1) =
        some (e.Prefix ++ v.Name, k) ∧
      indexMethod k = (k : Int)) ∧
    (∀ name ord, (name, ord) ∈ zeroBinding e →
      ord = 0 ∧ name = e.Prefix ++ e.Zero) := by
  constructor
  · have hk : k - 1 < e.Values.length := by omega
    cases hget : e.Values.get? (k-1) with
    | none =>
      rw [List.get?_eq_none] at hget
      omega
    | some v =>
      refine ⟨v, rfl, ?_, rfl⟩
      rw [bindingEntries_get? e.Prefix e.Values 0 (k-1), hget]
      simp only [Option.map_some', Option.some.injEq, Prod.mk.injEq]
      exact ⟨trivial, by omega⟩
  · intro name ord hmem
    unfold zeroBinding at hmem
    by_cases hz : (e.Zero != "") = true
    · simp only [hz, if_true, List.mem_singleton, Prod.mk.injEq] at hmem
      exact ⟨hmem.2, hmem.1⟩
    · simp [hz] at hmem

/-- Witness for C6: the third enumerator of the `Example` enumeration binds
`Ugly` with ordinal 3. -/
theorem enumerator_ordinals_witness :
    ∃ v, exampleEnum.Values.get? 2 = some v ∧
      (bindingEntries exampleEnum.Prefix 0 exampleEnum.Values).get? 2 =
        some (exampleEnum.Prefix ++ v.Name, 3) ∧
      indexMethod 3 = (3 : Int) :=
  (enumerator_ordinals exampleEnum 3 (by omega) (by decide)).1

/-- C9 (implicit): the generated UnmarshalText assigns the zero value to the
receiver before scanning the label table, so its result never depends on the
previous receiver value, and whenever decoding fails the receiver is left
equal to the zero enumerator. -/
theorem unmarshal_resets_receiver (e : Enum) (tname : String) :
    (∀ v0 v0' text, unmarshalRun (strTable e) tname v0 text =
        unmarshalRun (strTable e) tname v0' text) ∧
    (∀ v0 text err, (unmarshalRun (strTable e) tname v0 text).1 = some err →
        (unmarshalRun (strTable e) tname v0 text).2 = 0) := by
  refine ⟨fun v0 v0' text => rfl, ?_⟩
  intro v0 text err
  unfold unmarshalRun
  by_cases hc : (text == "" || text == (strTable e).getD 0 "") = true
  · rw [if_pos hc]
    intro h
    exact absurd h (by simp)
  · rw [if_neg hc]
    cases hidx : ((strTable e).drop 1).findIdx? (fun opt => opt == text) with
    | some i =>
      intro h
      exact absurd h (by simp)
    | none =>
      intro h
      rfl

/-- Witness for C9: decoding the unknown label `nonesuch` into a receiver
holding ordinal 2 fails and resets the receiver to 0. -/
theorem unmarshal_resets_receiver_witness :
    (unmarshalRun (strTable e3Enum) "E3" 2 "nonesuch").2 = 0 :=
  (unmarshal_resets_receiver e3Enum "E3").2 2 "nonesuch"
    ("invalid value for E3: " ++ goQuote "nonesuch") rfl

/-- C10 (implicit): the outcome of checkValid depends only on the package
name, type names, prefixes, zero names, and enumerator names — any two
configs with the same validation skeleton (in particular, configs differing
only in enumerator `Text`/`Doc` or enum `Doc`/`ValDoc` fields) validate
identically; and a config in which two enumerators share identical explicit
label text passes validation. -/
theorem checkValid_skeleton_only :
    (∀ c c' : Config, scrubConfig c = scrubConfig c' →
      checkValid c = checkValid c') ∧
    checkValid cDupText = .ok () := by
  constructor
  · intro c c' h
    have hp : c.Package = c'.Package := by
      have h2 := congrArg Config.Package h
      simpa [scrubConfig] using h2
    have he : c.Enum.map scrubEnum = c'.Enum.map scrubEnum := by
      have h2 := congrArg Config.Enum h
      simpa [scrubConfig] using h2
    have hempty : c.Enum.isEmpty = c'.Enum.isEmpty := by
      cases hv1 : c.Enum <;> cases hv2 : c'.Enum <;> simp_all
    unfold checkValid
    rw [hp, hempty, checkEnums_scrub c.Enum c'.Enum he]
  · rfl

/-- Witness for C10: two configs differing only in a value's documentation
validate identically. -/
theorem checkValid_skeleton_only_witness :
    checkValid { Package := "p", Enum := [eDocA] } =
      checkValid { Package := "p", Enum := [eDocB] } :=
  checkValid_skeleton_only.1 { Package := "p", Enum := [eDocA] }
    { Package := "p", Enum := [eDocB] } rfl

theorem flatMap_goQuoteChar_plain :
    ∀ (l : List Char), (∀ c ∈ l, plainChar c) → l.flatMap goQuoteChar = l := by
  intro l
  induction l with
  | nil => intro _; rfl
  | cons c rest ih =>
    intro h
    obtain ⟨h1, h2, h3, h4⟩ := h c (List.mem_cons_self c rest)
    have hq : goQuoteChar c = [c] := by
      unfold goQuoteChar
      rw [if_neg (by push_neg; exact ⟨h3, h4⟩), if_pos ⟨h1, h2⟩]
    simp only [List.flatMap_cons, hq,
      ih (fun c hc => h c (List.mem_cons_of_mem _ hc)), List.singleton_append]

theorem goQuote_plain (s : String) (h : ∀ c ∈ s.data, plainChar c) :
    goQuote s = quoted s := by
  unfold goQuote quoted
  rw [flatMap_goQuoteChar_plain s.data h]

theorem exists_append_decomp_iff (s m : String) :
    (∃ pre post, m = pre ++ s ++ post) ↔ s.data <:+: m.data := by
  constructor
  · rintro ⟨pre, post, rfl⟩
    exact ⟨pre.data, post.data, by simp⟩
  · rintro ⟨l, r, h⟩
    refine ⟨⟨l⟩, ⟨r⟩, ?_⟩
    cases m with
    | mk d =>
      apply congrArg String.mk
      simpa using h.symm

/-- Counterexample for C8: the input `a"b` has no case-insensitive match
among E3's (all-ASCII) labels, so the generated Set fails and leaves the
receiver unchanged, but the `%q` escaping in the message means the error
does not contain the raw input string. -/
theorem set_method_cex :
    checkValid { Package := "testdata", Enum := [e3Enum] } = .ok () ∧
    e3Enum.FlagValue = true ∧
    (∀ lbl ∈ labels e3Enum, eqFold lbl "a\"b" = false) ∧
    setRun (strTable e3Enum) e3Enum.typeName 2 "a\"b" =
      (some "invalid value for E3: \"a\\\"b\"", 2) ∧
    ¬ ∃ pre post,
      "invalid value for E3: \"a\\\"b\"" = pre ++ "a\"b" ++ post := by
  refine ⟨rfl, rfl, by decide, by decide, ?_⟩
  rw [exists_append_decomp_iff]
  decide

/-- C8 (amended): for every validated enumeration with the flag-value
feature and ASCII labels (where the embedded case folding coincides with
Go's EqualFold), the generated Set delegates to the constructor; on an
ASCII input with no case-insensitive match among the labels it returns an
error containing the `%q`-quoted input — and the raw input itself when the
input is printable ASCII without quote or backslash — while leaving the
receiver unchanged, and on a match it assigns the matched enumerator (a
valid value) and returns no error. -/
theorem set_method_amended (e : Enum) (p : String)
    (hv : checkValid { Package := p, Enum := [e] } = .ok ())
    (hf : e.FlagValue = true)
    (hl : ∀ lbl ∈ labels e, ∀ c ∈ lbl.data, c.toNat < 0x80)
    (v0 : Nat) (s : String) (hs : ∀ c ∈ s.data, c.toNat < 0x80) :
    ((∀ lbl ∈ labels e, eqFold lbl s = false) →
      setRun (strTable e) e.typeName v0 s =
        (some ("invalid value for " ++ e.typeName ++ ": " ++ goQuote s), v0) ∧
      ∃ pre post,
        "invalid value for " ++ e.typeName ++ ": " ++ goQuote s =
          pre ++ goQuote s ++ post) ∧
    ((∀ c ∈ s.data, plainChar c) → (∀ lbl ∈ labels e, eqFold lbl s = false) →
      ∃ pre post,
        "invalid value for " ++ e.typeName ++ ": " ++ goQuote s =
          pre ++ s ++ post) ∧
    (∀ i, (labels e).findIdx? (fun opt => eqFold opt s) = some i →
      setRun (strTable e) e.typeName v0 s = (none, i + 1) ∧
      validMethod (strTable e) (i + 1) = true) := by
  refine ⟨?_, ?_, ?_⟩
  · intro hall
    constructor
    · unfold setRun newEnum
      have hnone : ((strTable e).drop 1).findIdx? (fun opt => eqFold opt s) =
          none := by
        rw [show (strTable e).drop 1 = labels e from rfl]
        rw [List.findIdx?_eq_none_iff]
        exact hall
      rw [hnone]
      rfl
    · exact ⟨"invalid value for " ++ e.typeName ++ ": ", "", by
        rw [String.append_empty]⟩
  · intro hplain _
    refine ⟨"invalid value for " ++ e.typeName ++ ": " ++ "\"", "\"", ?_⟩
    rw [goQuote_plain s hplain]
    exact quoted_decomp e.typeName s
  · intro i hidx
    have hlt : i < (labels e).length :=
      findIdx?_some_lt (fun opt => eqFold opt s) (labels e) i hidx
    have hvalid : validMethod (strTable e) (i + 1) = true := by
      unfold validMethod
      rw [decide_eq_true (by omega : 0 < i + 1)]
      rw [decide_eq_true
        (by simp only [strTable, List.length_cons]; omega :
          i + 1 < (strTable e).length)]
      rfl
    refine ⟨?_, hvalid⟩
    unfold setRun newEnum
    rw [show (strTable e).drop 1 = labels e from rfl, hidx, hvalid]
    rfl

/-- Witness for the amended C8: setting E3 from the unknown ASCII string
`baz` fails, naming `baz` and leaving the receiver (ordinal 2) unchanged. -/
theorem set_method_amended_witness :
    setRun (strTable e3Enum) e3Enum.typeName 2 "baz" =
      (some ("invalid value for " ++ e3Enum.typeName ++ ": " ++
        goQuote "baz"), 2) :=
  ((set_method_amended e3Enum "testdata" rfl rfl (by decide) 2 "baz"
    (by decide)).1 (by decide)).1

/-- Counterexample for C4: the declaration set with a single validated
enumeration whose only value carries the explicit label text `"<invalid>"`
(text-marshal enabled) breaks the round-trip law: the enumerator with
ordinal 1 encodes to `"<invalid>"`, which decodes to the zero enumerator,
not back to ordinal 1. -/
theorem text_roundtrip_cex :
    checkValid { Package := "p", Enum := [eBadLabel] } = .ok () ∧
    eBadLabel.TextMarshal = true ∧
    marshalText (strTable eBadLabel) 1 = some "<invalid>" ∧
    unmarshalRun (strTable eBadLabel) eBadLabel.typeName 1 "<invalid>" =
      (none, 0) ∧
    (0 : Nat) ≠ 1 :=
  ⟨rfl, rfl, rfl, rfl, by decide⟩

/-- C4 (amended): for every validated enumeration with text marshaling
enabled whose label table has no duplicates (in particular no label equal to
the reserved invalid marker), decoding the encoding of any enumerator —
including the zero value — yields that enumerator again. -/
theorem text_roundtrip_amended (e : Enum) (p : String)
    (hv : checkValid { Package := p, Enum := [e] } = .ok ())
    (ht : e.TextMarshal = true) (hnd : (strTable e).Nodup)
    (k : Nat) (hk : k ≤ e.Values.length) (v0 : Nat) :
    ∃ lbl, marshalText (strTable e) k = some lbl ∧
      unmarshalRun (strTable e) e.typeName v0 lbl = (none, k) := by
  have hlen : (strTable e).length = e.Values.length + 1 := by
    simp [strTable, labels]
  have hk' : k < (strTable e).length := by omega
  cases hget : (strTable e).get? k with
  | none =>
    rw [List.get?_eq_none] at hget
    omega
  | some lbl =>
    refine ⟨lbl, hget, ?_⟩
    cases k with
    | zero =>
      have hl0 : lbl = "<invalid>" := by
        simpa [strTable] using hget.symm
      subst hl0
      rfl
    | succ j =>
      have hget2 : (labels e).get? j = some lbl := by
        simpa [strTable] using hget
      have hlne : lbl ≠ "" :=
        labels_ne_empty p e hv lbl (List.get?_mem hget2)
      have hinv : lbl ≠ "<invalid>" := by
        intro hh
        have hmem : lbl ∈ labels e := List.get?_mem hget2
        have hnotin : "<invalid>" ∉ labels e := (List.nodup_cons.mp hnd).1
        exact hnotin (hh ▸ hmem)
      have hndl : (labels e).Nodup := (List.nodup_cons.mp hnd).2
      unfold unmarshalRun
      have hcond : ¬((lbl == "" || lbl == (strTable e).getD 0 "") = true) := by
        simp [strTable, hlne, hinv]
      rw [if_neg hcond]
      rw [show (strTable e).drop 1 = labels e from rfl]
      rw [nodup_findIdx?_get (labels e) j lbl hndl hget2]

/-- Witness for the amended C4: the E3 enumerator with ordinal 2 (label
`bar`) round-trips through MarshalText/UnmarshalText. -/
theorem text_roundtrip_amended_witness :
    ∃ lbl, marshalText (strTable e3Enum) 2 = some lbl ∧
      unmarshalRun (strTable e3Enum) e3Enum.typeName 5 lbl = (none, 2) :=
  text_roundtrip_amended e3Enum "testdata" rfl rfl (by decide) 2 (by decide) 5

end Enumgen
